import Mathlib

/-!
# Verification of the ArrayViewer slice/tiling/axis-mapping subsystem

Shallow embedding of the logic-bearing parts of `src/ArrayViewer/Charts.py`
and `src/ArrayViewer/Shape.py`:

* the mosaic layout `_flat_with_padding` / `_rows_from_dim` and its click
  inverse `_unravel_flat_with_padding`,
* the cutout pipeline `GraphWidget.renew_cutout` / `GraphWidget.renewPlot`
  (shape-level semantics),
* the reduction-axis adjustment of `renewPlot` / `set_operation`,
* the tick derivation `_setlocator` / `reformat`,
* the slice-field parser `singleShape.get_value`,
* the RGB branch of `GraphWidget._n_D_plot`,
* the rank-2 dispatch of `GraphWidget.plot`.

NumPy arrays are modelled as shapes plus total index functions (C order);
machine floats appearing only as exact small rationals are modelled by `ℚ`,
with `Option ℚ` where a NaN can arise.
-/

namespace ArrayViewer

/-- An N-dimensional array: a shape plus a total index function (values
outside the valid index range are irrelevant junk). C-order semantics. -/
structure NDArr (α : Type) where
  shape : List ℕ
  data : List ℕ → α

/-- A 2-D array as a pair of extents plus an index function. -/
structure Mat2 (α : Type) where
  rows : ℕ
  cols : ℕ
  f : ℕ → ℕ → α

/-- A 3-D array as a triple of extents plus an index function. -/
structure Mat3 (α : Type) where
  d0 : ℕ
  d1 : ℕ
  d2 : ℕ
  f : ℕ → ℕ → ℕ → α

/-- Row-major (C order) flattening of a multi-index against a dims list;
the semantics of `np.ravel_multi_index`. -/
def ravelIdx : List ℕ → List ℕ → ℕ
  | i :: is, _d :: ds => i * ds.prod + ravelIdx is ds
  | _, _ => 0

/-- Row-major unflattening of a flat index against a dims list; the
semantics of `np.unravel_index` (line 61 of Charts.py). -/
def unravelIdx (k : ℕ) : List ℕ → List ℕ
  | [] => []
  | _d :: ds => k / ds.prod :: unravelIdx (k % ds.prod) ds

/-- The float ratio test `.18 < 1.0 * dim[2] / dim[3] < 5.5` of
`_rows_from_dim` (Charts.py line 43), written with exact rational
arithmetic (`18 * d3 < 100 * d2` iff `0.18 < d2 / d3`, and
`10 * d2 < 55 * d3` iff `d2 / d3 < 5.5`).  For `d3 = 0` Python would raise
`ZeroDivisionError`; that case only arises with zero pages and is outside
every claim, and here the test is simply false then. -/
def ratioOK (d2 d3 : ℕ) : Bool := decide (18 * d3 < 100 * d2) && decide (10 * d2 < 55 * d3)

/-- The divisor-search loop of `_rows_from_dim` (Charts.py lines 49-52):
`for n in range(int(np.sqrt(last_dim)), last_dim + 1): if last_dim % n == 0:
rows = last_dim // n; break`.  Returns the first `n` of the range dividing
`p`; `none` models the loop falling through with `rows` unbound. -/
def divisorSearch (p : ℕ) : Option ℕ :=
  (List.range' (Nat.sqrt p) (p + 1 - Nat.sqrt p)).find? (fun n => p % n == 0)

/-- `_rows_from_dim(dim)` (Charts.py lines 41-53).  `none` models the
`UnboundLocalError` that Python would raise if the loop found no divisor. -/
def rowsFromDim (dim : List ℕ) : Option ℕ :=
  if dim.length = 4 && ratioOK (dim.getD 2 0) (dim.getD 3 0) then
    some (dim.getD 2 0)
  else
    (divisorSearch (dim.drop 2).prod).map (fun n => (dim.drop 2).prod / n)

/-- `_rows_from_dim` as used inside `_unravel_flat_with_padding`
(Charts.py line 59), with junk value 0 on the unreachable `none` case. -/
def rowsD (sh : List ℕ) : ℕ := (rowsFromDim sh).getD 0

/-- `np.reshape(Array, Array.shape[:2] + (-1,))` (Charts.py line 26):
C-order reshape of a rank ≥ 2 array to 3-D, flattening the trailing dims. -/
def reshapeTo3 {α : Type} (A : NDArr α) : Mat3 α :=
  ⟨A.shape.getD 0 0, A.shape.getD 1 0, (A.shape.drop 2).prod,
   fun r c k => A.data (r :: c :: unravelIdx k (A.shape.drop 2))⟩

/-- `np.append(Arr, A0, axis=0)` with `A0` a fill block of `k` rows
(Charts.py lines 29, 31): pad the bottom of every page. -/
def appendRows3 {α : Type} (A : Mat3 α) (k : ℕ) (fill : α) : Mat3 α :=
  ⟨A.d0 + k, A.d1, A.d2, fun r c p => if r < A.d0 then A.f r c p else fill⟩

/-- `np.append(·, A1, axis=1)` with `A1` a fill block of `k` columns
(Charts.py lines 30, 31): pad the right of every page. -/
def appendCols3 {α : Type} (A : Mat3 α) (k : ℕ) (fill : α) : Mat3 α :=
  ⟨A.d0, A.d1 + k, A.d2, fun r c p => if c < A.d1 then A.f r c p else fill⟩

/-- `pArr.T` (Charts.py line 33): reverse the axes of a 3-D array. -/
def transpose3 {α : Type} (A : Mat3 α) : Mat3 α :=
  ⟨A.d2, A.d1, A.d0, fun a b c => A.f c b a⟩

/-- `np.hstack` applied to a 3-D array (Charts.py line 33): concatenate its
first-axis slices along axis 1, giving a `(d1, d0 * d2)` matrix. -/
def hstack3 {α : Type} (A : Mat3 α) : Mat2 α :=
  ⟨A.d1, A.d0 * A.d2, fun c u => A.f (u / A.d2) c (u % A.d2)⟩

/-- `.T` on a 2-D array (Charts.py line 33). -/
def transpose2 {α : Type} (A : Mat2 α) : Mat2 α := ⟨A.cols, A.rows, fun a b => A.f b a⟩

/-- `np.hstack(np.split(N, rows))` (Charts.py line 33): split along axis 0
into `rows` equal blocks (numpy requires `rows ∣ N.rows`) and re-join them
side by side. -/
def splitHstack {α : Type} (A : Mat2 α) (rows : ℕ) : Mat2 α :=
  ⟨A.rows / rows, rows * A.cols,
   fun v w => A.f ((w / A.cols) * (A.rows / rows) + v) (w % A.cols)⟩

/-- `np.append(A0, pA2D, axis=0)` with `A0` a fill block of `k` rows
(Charts.py lines 35, 37): pad the top. -/
def prependRows2 {α : Type} (A : Mat2 α) (k : ℕ) (fill : α) : Mat2 α :=
  ⟨k + A.rows, A.cols, fun r c => if r < k then fill else A.f (r - k) c⟩

/-- `np.append(A1, ·, axis=1)` with `A1` a fill block of `k` columns
(Charts.py lines 36, 37): pad the left. -/
def prependCols2 {α : Type} (A : Mat2 α) (k : ℕ) (fill : α) : Mat2 α :=
  ⟨A.rows, k + A.cols, fun r c => if c < k then fill else A.f r (c - k)⟩

/-- `_flat_with_padding(Array, padding, fill)` (Charts.py lines 23-38),
composed exactly as in the source.  `none` models the crash of
`_rows_from_dim` when its loop finds no divisor. -/
def flatWithPadding {α : Type} (A : NDArr α) (padding : ℕ) (fill : α) : Option (Mat2 α) :=
  (rowsFromDim A.shape).map (fun rows =>
    let Arr := reshapeTo3 A
    let pArr := appendCols3 (appendRows3 Arr padding fill) padding fill
    let pA2D := transpose2 (splitHstack (transpose2 (hstack3 (transpose3 pArr))) rows)
    prependCols2 (prependRows2 pA2D padding fill) padding fill)

/-- `_unravel_flat_with_padding(ind, sh, pad)` (Charts.py lines 56-64) for a
clicked pixel `ind = [x, y]`.  `[i - pad if i > pad else 0 for i in ind]`
coincides with truncated subtraction on ℕ but is kept literal. -/
def unravelFlat (ind : List ℕ) (sh : List ℕ) (pad : ℕ) : List ℕ :=
  let shifted := ind.map (fun i => if pad < i then i - pad else 0)
  let cols := (sh.drop 2).prod / rowsD sh
  let b0 := shifted.getD 0 0 / (sh.getD 0 0 + pad)
  let b1 := shifted.getD 1 0 / (sh.getD 1 0 + pad)
  shifted.getD 0 0 % (sh.getD 0 0 + pad) ::
    shifted.getD 1 0 % (sh.getD 1 0 + pad) ::
      unravelIdx (b1 * cols + b0) (sh.drop 2)

/-- The mosaic pixel `(x, y)` at which the forward layout places the array
element with intra-tile index `(r, c)` and page multi-index `ks`: with
`K` the flattened page, the page sits in grid cell
`(K / cols, K % cols)` and the whole mosaic is shifted by the top/left
padding.  (A derived position, used to state the round-trip theorem;
the placement itself is proved against `flatWithPadding`.) -/
def mosaicPos (sh : List ℕ) (pad r c : ℕ) (ks : List ℕ) : ℕ × ℕ :=
  let P := (sh.drop 2).prod
  let cols := P / rowsD sh
  let K := ravelIdx ks (sh.drop 2)
  (pad + K % cols * (sh.getD 0 0 + pad) + r, pad + K / cols * (sh.getD 1 0 + pad) + c)

section RowsFromDimLemmas

/-- Any value returned by the divisor-search loop is in the scanned range
and divides `p`. -/
lemma divisorSearch_some_spec {p n : ℕ} (h : divisorSearch p = some n) :
    Nat.sqrt p ≤ n ∧ n ≤ p ∧ p % n = 0 := by
  unfold divisorSearch at h
  have hmem := List.mem_of_find?_eq_some h
  have hpred := List.find?_some h
  rw [List.mem_range'_1] at hmem
  refine ⟨hmem.1, ?_, by simpa using hpred⟩
  omega

/-- The loop scans upward, so the found divisor is the least one `≥ int(sqrt p)`. -/
lemma find?_range'_min (q : ℕ → Bool) :
    ∀ (n s a : ℕ), (List.range' s n).find? q = some a →
      ∀ m, s ≤ m → m < s + n → q m → a ≤ m := by
  intro n
  induction n with
  | zero => intro s a h; simp [List.range'] at h
  | succ k ih =>
    intro s a h m hsm hm hqm
    rw [List.range'_succ] at h
    by_cases hqs : q s
    · rw [List.find?_cons_of_pos _ hqs] at h
      injection h with h
      omega
    · rw [List.find?_cons_of_neg _ hqs] at h
      rcases Nat.eq_or_lt_of_le hsm with heq | hlt
      · subst heq; simp [hqs] at hqm
      · exact ih (s + 1) a h m hlt (by omega) hqm

/-- For `p ≥ 1` the loop always succeeds (since `p` divides itself), and it
returns the least divisor of `p` at least `int(sqrt p)`. -/
lemma divisorSearch_total {p : ℕ} (hp : 1 ≤ p) :
    ∃ n, divisorSearch p = some n ∧ 1 ≤ n ∧ n ∣ p ∧ Nat.sqrt p ≤ n ∧
      ∀ m, Nat.sqrt p ≤ m → m ∣ p → n ≤ m := by
  have hsp : Nat.sqrt p ≤ p := Nat.sqrt_le_self p
  have hs1 : 1 ≤ Nat.sqrt p := by
    have := Nat.sqrt_pos.mpr (show 0 < p by omega)
    omega
  have hmem : p ∈ List.range' (Nat.sqrt p) (p + 1 - Nat.sqrt p) := by
    rw [List.mem_range'_1]; omega
  have hq : (fun n => p % n == 0) p = true := by simp
  have hsome : (List.range' (Nat.sqrt p) (p + 1 - Nat.sqrt p)).find?
      (fun n => p % n == 0) |>.isSome := by
    rw [List.find?_isSome]
    exact ⟨p, hmem, hq⟩
  obtain ⟨n, hn⟩ := Option.isSome_iff_exists.mp hsome
  have hspec := @divisorSearch_some_spec p n hn
  have hn1 : 1 ≤ n := le_trans hs1 hspec.1
  refine ⟨n, hn, hn1, Nat.dvd_of_mod_eq_zero hspec.2.2, hspec.1, ?_⟩
  intro m hm hmd
  have hmp : m ≤ p := Nat.le_of_dvd (by omega) hmd
  exact find?_range'_min _ _ _ _ hn m hm (by omega)
    (by simp [Nat.eq_zero_of_dvd_of_lt, Nat.mod_eq_zero_of_dvd hmd])

/-- A length-4 list is literally four elements. -/
lemma list_len4 {dim : List ℕ} (h : dim.length = 4) :
    dim = [dim.getD 0 0, dim.getD 1 0, dim.getD 2 0, dim.getD 3 0] := by
  rcases dim with _ | ⟨a, _ | ⟨b, _ | ⟨c, _ | ⟨d, _ | ⟨e, t⟩⟩⟩⟩⟩ <;> simp_all

/-- Whenever the page count is positive, `_rows_from_dim` returns a positive
divisor of the page count (in both of its branches). -/
lemma rowsFromDim_spec {dim : List ℕ} (hp : 1 ≤ (dim.drop 2).prod) :
    ∃ r, rowsFromDim dim = some r ∧ 1 ≤ r ∧ r ∣ (dim.drop 2).prod := by
  unfold rowsFromDim
  by_cases h4 : dim.length = 4 && ratioOK (dim.getD 2 0) (dim.getD 3 0)
  · rw [if_pos h4]
    have hlen : dim.length = 4 := by
      rcases Bool.and_eq_true_iff.mp h4 with ⟨h, _⟩
      simpa using h
    have hdrop : dim.drop 2 = [dim.getD 2 0, dim.getD 3 0] := by
      conv_lhs => rw [list_len4 hlen]
      simp
    rw [hdrop] at hp ⊢
    refine ⟨dim.getD 2 0, rfl, ?_, ?_⟩
    · simp only [List.prod_cons, List.prod_nil] at hp
      by_contra hc
      push_neg at hc
      interval_cases h : dim.getD 2 0 <;> omega
    · exact ⟨dim.getD 3 0 * 1, by simp [List.prod_cons, Nat.mul_assoc]⟩
  · rw [if_neg h4]
    obtain ⟨n, hn, hn1, hnd, -, -⟩ := divisorSearch_total hp
    refine ⟨(dim.drop 2).prod / n, by rw [hn]; rfl, ?_, ?_⟩
    · exact Nat.le_div_iff_mul_le (by omega) |>.mpr
        (by simpa using Nat.le_of_dvd (by omega) hnd)
    · exact Nat.div_dvd_of_dvd hnd

end RowsFromDimLemmas

section RavelUnravel

/-- Under a valid multi-index the flat index is bounded by the page count. -/
lemma ravelIdx_lt {ks ds : List ℕ} (h : List.Forall₂ (· < ·) ks ds) :
    ravelIdx ks ds < ds.prod := by
  induction h with
  | nil => simp [ravelIdx]
  | @cons k d ks ds hkd _ ih =>
    simp only [ravelIdx, List.prod_cons]
    calc k * ds.prod + ravelIdx ks ds < k * ds.prod + ds.prod := by omega
    _ = (k + 1) * ds.prod := by ring
    _ ≤ d * ds.prod := Nat.mul_le_mul_right _ (by omega)

/-- `np.unravel_index` is a left inverse of row-major flattening on valid
multi-indices. -/
lemma unravelIdx_ravelIdx {ks ds : List ℕ} (h : List.Forall₂ (· < ·) ks ds) :
    unravelIdx (ravelIdx ks ds) ds = ks := by
  induction h with
  | nil => simp [ravelIdx, unravelIdx]
  | @cons k d ks ds hkd htl ih =>
    have hlt : ravelIdx ks ds < ds.prod := ravelIdx_lt htl
    have hpos : 0 < ds.prod := by omega
    have h1 : (k * ds.prod + ravelIdx ks ds) / ds.prod = k := by
      rw [Nat.add_comm, Nat.add_mul_div_right _ _ hpos, Nat.div_eq_of_lt hlt]
      omega
    have h2 : (k * ds.prod + ravelIdx ks ds) % ds.prod = ravelIdx ks ds := by
      rw [Nat.add_comm, Nat.add_mul_mod_self_right, Nat.mod_eq_of_lt hlt]
    simp only [ravelIdx, unravelIdx, h1, h2, ih]

end RavelUnravel

section MosaicRoundTrip

/-- C1.  Round-trip of the mosaic layout: for every source array of rank ≥ 3
with all dimensions positive and every padding ≥ 0, `_flat_with_padding`
places the element with multi-index `(row, col, *page_indices)` at the mosaic
pixel `(x, y) = mosaicPos …`, and `_unravel_flat_with_padding((x, y), shape,
padding)` returns exactly `[row, col, *page_indices]`: the click-to-index
mapping is an exact left inverse of the forward tiling for every valid
multi-index. -/
theorem flat_unravel_roundtrip {α : Type} (fill : α) (data : List ℕ → α)
    (d0 d1 pad r c : ℕ) (ds ks : List ℕ)
    (hds : ds ≠ []) (hd0 : 0 < d0) (hd1 : 0 < d1) (hpos : ∀ d ∈ ds, 0 < d)
    (hr : r < d0) (hc : c < d1) (hks : List.Forall₂ (· < ·) ks ds) :
    (flatWithPadding ⟨d0 :: d1 :: ds, data⟩ pad fill).map
        (fun M => M.f (mosaicPos (d0 :: d1 :: ds) pad r c ks).2
                      (mosaicPos (d0 :: d1 :: ds) pad r c ks).1)
      = some (data (r :: c :: ks)) ∧
    unravelFlat [(mosaicPos (d0 :: d1 :: ds) pad r c ks).1,
                 (mosaicPos (d0 :: d1 :: ds) pad r c ks).2]
        (d0 :: d1 :: ds) pad
      = r :: c :: ks := by
  have hdrop : (d0 :: d1 :: ds).drop 2 = ds := rfl
  have hP : 0 < ds.prod := List.prod_pos hpos
  obtain ⟨rows, hrows, hrows1, hrowsdvd⟩ :=
    @rowsFromDim_spec (d0 :: d1 :: ds) hP
  rw [hdrop] at hrowsdvd
  have hrowsD : rowsD (d0 :: d1 :: ds) = rows := by simp [rowsD, hrows]
  obtain ⟨q, hq⟩ := hrowsdvd
  have hqpos : 0 < q := by
    rcases Nat.eq_zero_or_pos q with h0 | h; · rw [h0, Nat.mul_zero] at hq; omega
    exact h
  have hcols : ds.prod / rows = q := by
    rw [hq]; exact Nat.mul_div_cancel_left q (by omega)
  have hK : ravelIdx ks ds < ds.prod := ravelIdx_lt hks
  have hKq : ravelIdx ks ds / q * q + ravelIdx ks ds % q = ravelIdx ks ds := by
    rw [Nat.mul_comm]
    exact Nat.div_add_mod _ _
  have hRpos : 0 < d0 + pad := by omega
  have hCpos : 0 < d1 + pad := by omega
  have hx'mod : (ravelIdx ks ds % q * (d0 + pad) + r) % (d0 + pad) = r := by
    rw [Nat.add_comm, Nat.add_mul_mod_self_right]
    exact Nat.mod_eq_of_lt (by omega)
  have hx'div : (ravelIdx ks ds % q * (d0 + pad) + r) / (d0 + pad) = ravelIdx ks ds % q := by
    rw [Nat.add_comm, Nat.add_mul_div_right _ _ hRpos, Nat.div_eq_of_lt (by omega)]
    omega
  have hy'mod : (ravelIdx ks ds / q * (d1 + pad) + c) % (d1 + pad) = c := by
    rw [Nat.add_comm, Nat.add_mul_mod_self_right]
    exact Nat.mod_eq_of_lt (by omega)
  have hy'div : (ravelIdx ks ds / q * (d1 + pad) + c) / (d1 + pad) = ravelIdx ks ds / q := by
    rw [Nat.add_comm, Nat.add_mul_div_right _ _ hCpos, Nat.div_eq_of_lt (by omega)]
    omega
  have hPR : ds.prod * (d0 + pad) / rows = q * (d0 + pad) := by
    rw [hq, Nat.mul_assoc, Nat.mul_div_cancel_left _ (show 0 < rows by omega)]
  have huval : ravelIdx ks ds / q * (q * (d0 + pad)) + (ravelIdx ks ds % q * (d0 + pad) + r)
      = ravelIdx ks ds * (d0 + pad) + r := by
    have h : ravelIdx ks ds / q * (q * (d0 + pad)) + ravelIdx ks ds % q * (d0 + pad)
        = (ravelIdx ks ds / q * q + ravelIdx ks ds % q) * (d0 + pad) := by ring
    rw [← Nat.add_assoc, h, hKq]
  have huRmod : (ravelIdx ks ds * (d0 + pad) + r) % (d0 + pad) = r := by
    rw [Nat.add_comm, Nat.add_mul_mod_self_right]
    exact Nat.mod_eq_of_lt (by omega)
  have huRdiv : (ravelIdx ks ds * (d0 + pad) + r) / (d0 + pad) = ravelIdx ks ds := by
    rw [Nat.add_comm, Nat.add_mul_div_right _ _ hRpos, Nat.div_eq_of_lt (by omega)]
    omega
  have hXY : mosaicPos (d0 :: d1 :: ds) pad r c ks
      = (pad + ravelIdx ks ds % q * (d0 + pad) + r,
         pad + ravelIdx ks ds / q * (d1 + pad) + c) := by
    simp only [mosaicPos, hdrop, hrowsD, hcols, List.getD_cons_zero, List.getD_cons_succ]
  have hunr : unravelIdx (ravelIdx ks ds) ds = ks := unravelIdx_ravelIdx hks
  have hstep : flatWithPadding ⟨d0 :: d1 :: ds, data⟩ pad fill
      = some (prependCols2 (prependRows2 (transpose2 (splitHstack (transpose2 (hstack3
          (transpose3 (appendCols3 (appendRows3 (reshapeTo3 ⟨d0 :: d1 :: ds, data⟩)
            pad fill) pad fill)))) rows)) pad fill) pad fill) := by
    unfold flatWithPadding
    rw [show (⟨d0 :: d1 :: ds, data⟩ : NDArr α).shape = d0 :: d1 :: ds from rfl, hrows]
    rfl
  constructor
  · rw [hXY, hstep]
    simp only [reshapeTo3, appendRows3, appendCols3, transpose3, hstack3, transpose2,
      splitHstack, prependRows2, prependCols2, hdrop, List.getD_cons_zero,
      List.getD_cons_succ, Option.map_some']
    refine congrArg some ?_
    dsimp only
    have hnx : ¬ (pad + ravelIdx ks ds % q * (d0 + pad) + r < pad) := by omega
    have hny : ¬ (pad + ravelIdx ks ds / q * (d1 + pad) + c < pad) := by omega
    have hsx : pad + ravelIdx ks ds % q * (d0 + pad) + r - pad
        = ravelIdx ks ds % q * (d0 + pad) + r := by omega
    have hsy : pad + ravelIdx ks ds / q * (d1 + pad) + c - pad
        = ravelIdx ks ds / q * (d1 + pad) + c := by omega
    rw [if_neg hnx, if_neg hny, hsx, hsy, hy'div, hy'mod, hPR, huval, huRdiv, huRmod,
      if_pos hc, if_pos hr, hunr]
  · rw [hXY]
    simp only [unravelFlat, hdrop, hrowsD, hcols, List.map_cons, List.map_nil,
      List.getD_cons_zero, List.getD_cons_succ, List.cons.injEq]
    have hshx : (if pad < pad + ravelIdx ks ds % q * (d0 + pad) + r
        then pad + ravelIdx ks ds % q * (d0 + pad) + r - pad else 0)
        = ravelIdx ks ds % q * (d0 + pad) + r := by
      split <;> omega
    have hshy : (if pad < pad + ravelIdx ks ds / q * (d1 + pad) + c
        then pad + ravelIdx ks ds / q * (d1 + pad) + c - pad else 0)
        = ravelIdx ks ds / q * (d1 + pad) + c := by
      split <;> omega
    rw [hshx, hshy, hx'mod, hy'mod, hx'div, hy'div, hKq, hunr]
    exact ⟨rfl, rfl, rfl⟩

/-- Witness for C1 at the concrete input: shape (2,2,2), padding 1, element
(1,0,[1]) of the array `l ↦ l.sum`. -/
theorem flat_unravel_roundtrip_witness :
    (0 < 2 ∧ List.Forall₂ (· < ·) [1] [2]) ∧
    ((flatWithPadding ⟨[2, 2, 2], fun l => l.sum⟩ 1 (0 : ℕ)).map
        (fun M => M.f (mosaicPos [2, 2, 2] 1 1 0 [1]).2
                      (mosaicPos [2, 2, 2] 1 1 0 [1]).1)
      = some ((fun l => l.sum) [1, 0, 1]) ∧
    unravelFlat [(mosaicPos [2, 2, 2] 1 1 0 [1]).1,
                 (mosaicPos [2, 2, 2] 1 1 0 [1]).2] [2, 2, 2] 1
      = [1, 0, 1]) :=
  ⟨⟨by decide, List.Forall₂.cons (by decide) List.Forall₂.nil⟩,
   flat_unravel_roundtrip 0 (fun l => l.sum) 2 2 1 1 0 [2] [1]
     (by decide) (by decide) (by decide) (by decide) (by decide) (by decide)
     (List.Forall₂.cons (by decide) List.Forall₂.nil)⟩

/-- C10.  Totality and exactness of the tile-grid search: whenever the page
count `p = (dims[2:]).prod` is at least 1, `_rows_from_dim` returns (never
falls through unbound) a positive `rows` dividing `p`, so `cols = p // rows`
is exact: `rows * cols = p`. -/
theorem rows_from_dim_total_exact (dim : List ℕ) (hp : 1 ≤ (dim.drop 2).prod) :
    ∃ r, rowsFromDim dim = some r ∧ 0 < r ∧ r ∣ (dim.drop 2).prod ∧
      r * ((dim.drop 2).prod / r) = (dim.drop 2).prod := by
  obtain ⟨r, h1, h2, h3⟩ := rowsFromDim_spec hp
  exact ⟨r, h1, h2, h3, Nat.mul_div_cancel' h3⟩

/-- Witness for C10 at the concrete shape (4,4,6). -/
theorem rows_from_dim_total_exact_witness :
    1 ≤ (([4, 4, 6] : List ℕ).drop 2).prod ∧
    (∃ r, rowsFromDim [4, 4, 6] = some r ∧ 0 < r ∧ r ∣ (([4, 4, 6] : List ℕ).drop 2).prod ∧
      r * ((([4, 4, 6] : List ℕ).drop 2).prod / r) = (([4, 4, 6] : List ℕ).drop 2).prod) :=
  ⟨by decide, rows_from_dim_total_exact [4, 4, 6] (by decide)⟩

/-- `Nat.sqrt` is proof-level only (not kernel reducible), so concrete runs
of the divisor search are evaluated through this unfolding. -/
lemma divisorSearch_eval {p s : ℕ} (h : Nat.sqrt p = s) :
    divisorSearch p = (List.range' s (p + 1 - s)).find? (fun n => p % n == 0) := by
  rw [divisorSearch, h]

/-- Concrete run: pages = 6 starts its search at `int(sqrt 6) = 2`, which
divides 6. -/
lemma divisorSearch_six : divisorSearch 6 = some 2 := by
  rw [divisorSearch_eval (show Nat.sqrt 6 = 2 by norm_num)]
  decide

/-- Concrete run: `_rows_from_dim((4, 4, 6)) = 3` (rank 3 avoids the 4-D
branch; `n = 2`, `rows = 6 // 2 = 3`). -/
lemma rowsFromDim_446 : rowsFromDim [4, 4, 6] = some 3 := by
  unfold rowsFromDim
  rw [if_neg (by decide)]
  rw [show (List.drop 2 [4, 4, 6]).prod = 6 by decide, divisorSearch_six]
  rfl

/-- Concrete run of the whole forward layout on shape (4,4,6), padding 1:
the mosaic has 16 rows and 11 columns. -/
lemma flat_446_shape :
    (flatWithPadding ⟨[4, 4, 6], fun _ => (0 : ℕ)⟩ 1 0).map (fun M => (M.rows, M.cols))
      = some (16, 11) := by
  unfold flatWithPadding
  rw [show (⟨[4, 4, 6], fun _ => (0 : ℕ)⟩ : NDArr ℕ).shape = [4, 4, 6] from rfl,
    rowsFromDim_446]
  rfl

/-- C2 counterexample.  For the cutout shape (4,4,6) with padding 1 the code
does NOT pick `n = 3, rows = 2`: the loop of `_rows_from_dim` starts at
`int(np.sqrt(6)) = 2`, which already divides 6, so `n = 2` and `rows = 3`;
the resulting mosaic has shape (16, 11), not (11, 16) as the claim states. -/
theorem tile_grid_counterexample :
    rowsFromDim [4, 4, 6] = some 3 ∧ (3 : ℕ) ≠ 2 ∧
    (flatWithPadding ⟨[4, 4, 6], fun _ => (0 : ℕ)⟩ 1 0).map (fun M => (M.rows, M.cols))
      = some (16, 11) ∧ ((16, 11) : ℕ × ℕ) ≠ (11, 16) :=
  ⟨rowsFromDim_446, by decide, flat_446_shape, by decide⟩

/-- C2 (amended).  For a cutout that is not the 4-D special case, the row
count equals `pages / n` where `n` is the smallest divisor of `pages` with
`n ≥ int(sqrt(pages))` (the floor of the square root, not the square root
itself); in particular for shape (4,4,6), padding 1 (`pages = 6`): `n = 2`,
`rows = 3`, and the mosaic returned by `_flat_with_padding` has shape
(16, 11). -/
theorem tile_grid_rows_amended (dim : List ℕ)
    (hnot4 : (decide (dim.length = 4) && ratioOK (dim.getD 2 0) (dim.getD 3 0)) = false)
    (hp : 1 ≤ (dim.drop 2).prod) :
    (∃ n, n ∣ (dim.drop 2).prod ∧ Nat.sqrt (dim.drop 2).prod ≤ n ∧
        (∀ m, Nat.sqrt (dim.drop 2).prod ≤ m → m ∣ (dim.drop 2).prod → n ≤ m) ∧
        rowsFromDim dim = some ((dim.drop 2).prod / n)) ∧
    rowsFromDim [4, 4, 6] = some 3 ∧
    (flatWithPadding ⟨[4, 4, 6], fun _ => (0 : ℕ)⟩ 1 0).map (fun M => (M.rows, M.cols))
      = some (16, 11) := by
  refine ⟨?_, rowsFromDim_446, flat_446_shape⟩
  obtain ⟨n, hn, hn1, hnd, hns, hmin⟩ := divisorSearch_total hp
  refine ⟨n, hnd, hns, hmin, ?_⟩
  have hcond : ¬ ((dim.length = 4 && ratioOK (dim.getD 2 0) (dim.getD 3 0)) = true) := by
    intro h
    rw [h] at hnot4
    simp at hnot4
  unfold rowsFromDim
  rw [if_neg hcond, hn]
  rfl

/-- Witness for C2's amended statement at the concrete shape (3,3,5)
(`pages = 5`, `int(sqrt 5) = 2`, least divisor ≥ 2 is 5, `rows = 1`). -/
theorem tile_grid_rows_amended_witness :
    ((decide (([3, 3, 5] : List ℕ).length = 4)
        && ratioOK (([3, 3, 5] : List ℕ).getD 2 0) (([3, 3, 5] : List ℕ).getD 3 0)) = false
      ∧ 1 ≤ (([3, 3, 5] : List ℕ).drop 2).prod) ∧
    ((∃ n, n ∣ (([3, 3, 5] : List ℕ).drop 2).prod
        ∧ Nat.sqrt (([3, 3, 5] : List ℕ).drop 2).prod ≤ n
        ∧ (∀ m, Nat.sqrt (([3, 3, 5] : List ℕ).drop 2).prod ≤ m
            → m ∣ (([3, 3, 5] : List ℕ).drop 2).prod → n ≤ m)
        ∧ rowsFromDim [3, 3, 5] = some ((([3, 3, 5] : List ℕ).drop 2).prod / n)) ∧
    rowsFromDim [4, 4, 6] = some 3 ∧
    (flatWithPadding ⟨[4, 4, 6], fun _ => (0 : ℕ)⟩ 1 0).map (fun M => (M.rows, M.cols))
      = some (16, 11)) :=
  ⟨⟨by decide, by decide⟩, tile_grid_rows_amended [3, 3, 5] (by decide) (by decide)⟩

end MosaicRoundTrip

section OperationAxes

/-- The reduction-axis tuple computed by `renewPlot` (Charts.py lines
452-453): `a = np.setdiff1d(self._oprdim, scalDims)` is the sorted set
difference, and `self._oprcorr = tuple(b - (scalDims <= b).sum() for b in a)`
shifts each surviving operation axis down by the number of scalar axes
`≤` it. -/
def oprcorrTuple (D S : Finset ℕ) : List ℕ :=
  ((D \ S).sort (· ≤ ·)).map (fun b => b - (S.filter (fun s => s ≤ b)).card)

/-- The guard of Charts.py line 451 combined with `set_operation` (lines
544-546): when `len(self._oprdim)` is nonzero and not all operation dims are
scalar, the tuple `self._oprcorr` is passed as the `axis` argument of the
configured reduction (np.nanmin / np.nanmax / np.nanmean / np.nanmedian);
`none` models the branch where no reduction is applied. -/
def axesPassed (D S : Finset ℕ) : Option (List ℕ) :=
  if D.Nonempty ∧ ¬ D ⊆ S then some (oprcorrTuple D S) else none

/-- C4.  Reduction-axis adjustment law: for every operation-dimension set D
and scalar-dimension set S with D not fully contained in S, the tuple of
axes passed to the reduction is exactly the (sorted) image of
`d ↦ d - |{s ∈ S : s < d}|` over `D \ S`: each surviving operation axis is
shifted down by the number of scalar axes strictly below it (for `d ∉ S`,
counting `s ≤ d` and `s < d` agree). -/
theorem reduction_axes_adjustment (D S : Finset ℕ) (h : ¬ D ⊆ S) :
    axesPassed D S
      = some (((D \ S).sort (· ≤ ·)).map
          (fun d => d - (S.filter (fun s => s < d)).card)) := by
  have hne : D.Nonempty := by
    rcases Finset.not_subset.mp h with ⟨a, haD, _⟩
    exact ⟨a, haD⟩
  unfold axesPassed
  rw [if_pos ⟨hne, h⟩]
  unfold oprcorrTuple
  refine congrArg some (List.map_congr_left ?_)
  intro b hb
  have hbS : b ∉ S := (Finset.mem_sdiff.mp ((Finset.mem_sort _).mp hb)).2
  have hfil : S.filter (fun s => s ≤ b) = S.filter (fun s => s < b) := by
    apply Finset.filter_congr
    intro s hs
    have hne2 : s ≠ b := fun he => hbS (he ▸ hs)
    omega
  rw [hfil]

/-- Witness for C4 at D = {2}, S = {0}: the axis passed is 2 - 1 = 1. -/
theorem reduction_axes_adjustment_witness :
    ¬ ({2} : Finset ℕ) ⊆ {0} ∧
    axesPassed {2} {0}
      = some (((({2} : Finset ℕ) \ {0}).sort (· ≤ ·)).map
          (fun d => d - (({0} : Finset ℕ).filter (fun s => s < d)).card)) :=
  ⟨by decide, reduction_axes_adjustment {2} {0} (by decide)⟩

end OperationAxes

section TransposeInvolution

/-- The swap of the first two entries of a list: the index/shape action of
`np.swapaxes(·, 0, 1)` and the tick swap `self.ticks[0], self.ticks[1] =
self.ticks[1], self.ticks[0]`. -/
def swap2 {α : Type} : List α → List α
  | a :: b :: t => b :: a :: t
  | l => l

/-- `np.swapaxes(self.cutout, 0, 1)` (Charts.py line 459). -/
def swapaxes01 {α : Type} (A : NDArr α) : NDArr α :=
  ⟨swap2 A.shape, fun ix => A.data (swap2 ix)⟩

/-- The conditional transpose of the cutout in `renewPlot` (Charts.py lines
457-459): swap axes 0 and 1 when `Transp` is checked and rank > 1. -/
def transpStep {α : Type} (transp : Bool) (A : NDArr α) : NDArr α :=
  if transp ∧ 1 < A.shape.length then swapaxes01 A else A

/-- The conditional swap of the first two tick sources in `_set_ticks`
(Charts.py lines 371-372). -/
def transpTicks {β : Type} (transp : Bool) (ticks : List β) : List β :=
  if transp then swap2 ticks else ticks

lemma swap2_swap2 {α : Type} (l : List α) : swap2 (swap2 l) = l := by
  match l with
  | [] => rfl
  | [_a] => rfl
  | _a :: _b :: _t => rfl

lemma swap2_length {α : Type} (l : List α) : (swap2 l).length = l.length := by
  match l with
  | [] => rfl
  | [_a] => rfl
  | _a :: _b :: _t => rfl

lemma swapaxes01_involutive {α : Type} (A : NDArr α) :
    swapaxes01 (swapaxes01 A) = A := by
  rcases A with ⟨sh, d⟩
  simp only [swapaxes01]
  refine congrArg₂ NDArr.mk (swap2_swap2 sh) ?_
  funext ix
  rw [swap2_swap2]

/-- C9.  Transpose involution: applying the transpose step of `renewPlot`
(axis-0/1 swap of the cutout) twice, and the tick swap of `_set_ticks`
twice, returns the cutout orientation and the tick order to their original
state — for cutouts of any rank (rank ≤ 1 is untouched) and any tick
list. -/
theorem transpose_involution {α β : Type} (A : NDArr α) (ticks : List β) :
    transpStep true (transpStep true A) = A ∧
    transpTicks true (transpTicks true ticks) = ticks := by
  constructor
  · by_cases h : 1 < A.shape.length
    · have hsw : (swapaxes01 A).shape.length = A.shape.length := by
        simp [swapaxes01, swap2_length]
      have h1 : transpStep true A = swapaxes01 A := by
        unfold transpStep
        rw [if_pos ⟨rfl, h⟩]
      have h2 : transpStep true (swapaxes01 A) = swapaxes01 (swapaxes01 A) := by
        unfold transpStep
        rw [if_pos ⟨rfl, by rw [hsw]; exact h⟩]
      rw [h1, h2]
      exact swapaxes01_involutive A
    · have h1 : transpStep true A = A := by
        unfold transpStep
        rw [if_neg (fun hc => h hc.2)]
      rw [h1, h1]
  · unfold transpTicks
    rw [if_pos rfl, if_pos rfl]
    exact swap2_swap2 ticks

end TransposeInvolution

section TickDerivation

/-- `astype(int)` on a float value: truncation toward zero. -/
def truncZ (x : ℚ) : ℤ := if 0 ≤ x then ⌊x⌋ else ⌈x⌉

/-- The integrality test of `_setlocator` (Charts.py line 90):
`all(d.astype(int) == d.astype(float))`. -/
def allIntegral (d : List ℚ) : Bool := d.all (fun x => decide ((truncZ x : ℚ) = x))

/-- The derived tick values of the list branch of `_setlocator` (Charts.py
lines 78-81), taken for a range-sliced axis whose tick source is the triple
`lim = [start, stop, step]`:
`d = (np.arange(len(loc)) - 1) * (loc[2] - loc[1]) * lim[2] + lim[0]`. -/
def setlocatorTicks (lim : List ℚ) (loc : List ℚ) : List ℚ :=
  (List.range loc.length).map
    (fun (i : ℕ) =>
      ((i : ℚ) - 1) * (loc.getD 2 0 - loc.getD 1 0) * lim.getD 2 0 + lim.getD 0 0)

/-- Which branch of `reformat` (Charts.py lines 97-103) renders a value:
empty string for missing/masked input, scientific (`f"{dat:.5e}"`) when
`not 1e-5 < abs(dat) < 1e5`, fixed-point (`f"{dat:.5f}"`) otherwise.
The float literals 1e-5 and 1e5 are the exact rationals 1/100000 and
100000. -/
inductive NumFmt
  | blank
  | sci
  | fixed
deriving DecidableEq

/-- `reformat(dat)` (Charts.py lines 97-103), reduced to the format chosen. -/
def reformat : Option ℚ → NumFmt
  | none => .blank
  | some v => if ¬ (1 / 100000 < |v| ∧ |v| < 100000) then .sci else .fixed

/-- The rendering decision of `_setlocator` (Charts.py lines 90-94):
integer labels when all values are integral, otherwise per-value
`reformat`. -/
def renderTicks (d : List ℚ) : List ℤ ⊕ List NumFmt :=
  if allIntegral d then Sum.inl (d.map truncZ)
  else Sum.inr (d.map (fun x => reformat (some x)))

/-- C5 counterexample.  At the derived tick value 100000 = 1e5 (reachable
whenever the tick array is not all-integral, e.g. `d = [1/2, 100000]`),
`reformat` chooses scientific notation even though the magnitude is NOT
outside the closed interval [1e-5, 1e5] (it sits on its boundary), where
the claim as stated requires a plain float rendering. -/
theorem range_ticks_counterexample :
    reformat (some 100000) = NumFmt.sci ∧
    ¬ (|(100000 : ℚ)| < 1 / 100000 ∨ (100000 : ℚ) < |(100000 : ℚ)|) ∧
    renderTicks [1 / 2, 100000] = Sum.inr [NumFmt.fixed, NumFmt.sci] := by
  refine ⟨?_, by norm_num, ?_⟩
  · rw [show reformat (some 100000)
        = if ¬ (1 / 100000 < |(100000 : ℚ)| ∧ |(100000 : ℚ)| < 100000) then NumFmt.sci
          else NumFmt.fixed from rfl]
    rw [if_pos (by norm_num)]
  · unfold renderTicks
    rw [if_neg ?hni]
    case hni =>
      unfold allIntegral truncZ
      norm_num
    rw [List.map_cons, List.map_cons, List.map_nil]
    rw [show reformat (some (1 / 2))
        = if ¬ (1 / 100000 < |(1 / 2 : ℚ)| ∧ |(1 / 2 : ℚ)| < 100000) then NumFmt.sci
          else NumFmt.fixed from rfl,
      show reformat (some 100000)
        = if ¬ (1 / 100000 < |(100000 : ℚ)| ∧ |(100000 : ℚ)| < 100000) then NumFmt.sci
          else NumFmt.fixed from rfl]
    rw [if_neg (by rw [not_not, abs_of_pos (show (0 : ℚ) < 1 / 2 by norm_num)]; norm_num),
      if_pos (by norm_num)]

lemma getD_map_range (f : ℕ → ℚ) {i n : ℕ} (h : i < n) :
    ((List.range n).map f).getD i 0 = f i := by
  rw [List.getD_eq_getElem?_getD, List.getElem?_map, List.getElem?_range h]
  rfl

lemma truncZ_intCast (z : ℤ) : truncZ (z : ℚ) = z := by
  unfold truncZ
  split
  · exact Int.floor_intCast z
  · exact Int.ceil_intCast z

/-- C5 (amended).  For a range-sliced axis `Range(start, stop, step)` and
any evenly spaced locator positions with locator step L (and at least three
positions, as the code reads `loc[2] - loc[1]`), the derived tick value at
position i is `(i-1) * L * step + start`; for slice text `1:4:2` with
locator positions [0,1,2] the labels are [-1, 1, 3]; if all derived values
are integral they are rendered as integers; otherwise per-value `reformat`
uses scientific notation exactly when the magnitude is ≤ 1e-5 or ≥ 1e5,
i.e. outside the OPEN interval (1e-5, 1e5) — not the closed interval of the
original claim. -/
theorem range_ticks_amended (loc : List ℚ) (L start stop step : ℚ) (i : ℕ)
    (d : List ℚ) (v : ℚ) (hlen : 3 ≤ loc.length)
    (heven : ∀ j, j + 1 < loc.length → loc.getD (j + 1) 0 - loc.getD j 0 = L)
    (hi : i < loc.length) :
    (setlocatorTicks [start, stop, step] loc).getD i 0
        = ((i : ℚ) - 1) * L * step + start ∧
    setlocatorTicks [1, 4, 2] [0, 1, 2] = [-1, 1, 3] ∧
    (allIntegral d = true ↔ ∀ x ∈ d, ∃ z : ℤ, (z : ℚ) = x) ∧
    (allIntegral d = true → renderTicks d = Sum.inl (d.map truncZ)) ∧
    (reformat (some v) = NumFmt.sci ↔ |v| ≤ 1 / 100000 ∨ 100000 ≤ |v|) := by
  refine ⟨?_, ?_, ?_, ?_, ?_⟩
  · unfold setlocatorTicks
    rw [getD_map_range _ hi]
    have hL : loc.getD 2 0 - loc.getD 1 0 = L := heven 1 (by omega)
    rw [hL]
    norm_num
  · unfold setlocatorTicks
    norm_num [List.range_succ]
  · unfold allIntegral
    rw [List.all_eq_true]
    constructor
    · intro h x hx
      exact ⟨truncZ x, of_decide_eq_true (h x hx)⟩
    · rintro h x hx
      obtain ⟨z, hz⟩ := h x hx
      refine decide_eq_true ?_
      rw [← hz, truncZ_intCast]
  · intro h
    unfold renderTicks
    rw [if_pos h]
  · rw [show reformat (some v)
        = if ¬ (1 / 100000 < |v| ∧ |v| < 100000) then NumFmt.sci else NumFmt.fixed from rfl]
    split
    next h =>
      simp only [true_iff]
      rcases le_or_lt |v| (1 / 100000) with h1 | h1
      · exact Or.inl h1
      · refine Or.inr ?_
        by_contra h2
        push_neg at h2
        exact h ⟨h1, h2⟩
    next h =>
      rw [not_not] at h
      constructor
      · intro hh
        exact absurd hh (by simp)
      · intro hh
        rcases hh with hh | hh
        · linarith [h.1]
        · linarith [h.2]

/-- Witness for C5's amended statement at `loc = [0,1,2]`, `L = 1`,
`Range(1,4,2)`, position 2, `d = [1,2]`, `v = 7`. -/
theorem range_ticks_amended_witness :
    (3 ≤ ([0, 1, 2] : List ℚ).length ∧ 2 < ([0, 1, 2] : List ℚ).length) ∧
    ((setlocatorTicks [1, 4, 2] [0, 1, 2]).getD 2 0 = ((2 : ℚ) - 1) * 1 * 2 + 1 ∧
    setlocatorTicks [1, 4, 2] [0, 1, 2] = [-1, 1, 3] ∧
    (allIntegral [1, 2] = true ↔ ∀ x ∈ ([1, 2] : List ℚ), ∃ z : ℤ, (z : ℚ) = x) ∧
    (allIntegral [1, 2] = true → renderTicks [1, 2] = Sum.inl (([1, 2] : List ℚ).map truncZ)) ∧
    (reformat (some 7) = NumFmt.sci ↔ |(7 : ℚ)| ≤ 1 / 100000 ∨ 100000 ≤ |(7 : ℚ)|)) :=
  ⟨⟨by norm_num, by norm_num⟩,
   range_ticks_amended [0, 1, 2] 1 1 4 2 2 [1, 2] 7 (by norm_num)
     (by
       intro j hj
       simp only [List.length_cons, List.length_nil] at hj
       have hj2 : j < 2 := by omega
       interval_cases j <;> norm_num)
     (by norm_num)⟩

end TickDerivation

section SliceParser

/-- Per-dimension slice values produced by `singleShape.get_value`
(Shape.py lines 54-73): a clamped integer, a tuple of indices for comma
lists, or a slice object built from the colon-separated parts. -/
inductive SliceSpec
  | scalar (v : ℤ)
  | idxList (vs : List ℤ)
  | range (start stop step : Option ℤ)
deriving DecidableEq

/-- The text content of a shape line-edit after Python-level lexing,
matching the three branches of `get_value`: text that `int()` accepts (an
optionally signed integer), text containing a comma, or a colon
expression. -/
inductive FieldText
  | intField (v : ℤ)
  | listField (vs : List ℤ)
  | sliceField (start stop step : Option ℤ)

/-- `clipint` inside `get_value` (Shape.py lines 56-58):
`min(max(-maxt, int(x)), maxt - 1)` with `maxt` the dimension size. -/
def clipint (maxt v : ℤ) : ℤ := min (max (-maxt) v) (maxt - 1)

/-- `dict.fromkeys`-style de-duplication keeping first occurrences
(Shape.py line 70). -/
def dedupFirst (l : List ℤ) : List ℤ :=
  l.foldl (fun acc x => if x ∈ acc then acc else acc ++ [x]) []

/-- `singleShape.get_value` (Shape.py lines 54-73): the parsed value and the
is-scalar flag returned for each branch. -/
def get_value (maxt : ℤ) : FieldText → SliceSpec × Bool
  | .intField v => (.scalar (clipint maxt v), true)
  | .listField vs => (.idxList (dedupFirst (vs.map (clipint maxt))), false)
  | .sliceField a b c => (.range a b c, false)

/-- `ShapeSelector.get_shape` (Shape.py lines 195-205): per-dimension values
plus the list of scalar dimensions (the indices whose field parsed as an
integer). -/
def get_shape (dims : List (ℤ × FieldText)) : List SliceSpec × List ℕ :=
  (dims.map (fun p => (get_value p.1 p.2).1),
   (List.range dims.length).filter
     (fun n => (get_value (dims.getD n (0, .intField 0)).1
                          (dims.getD n (0, .intField 0)).2).2))

/-- C6.  Scalar-field clamping: for a dimension of size s ≥ 1 and a text
field holding an (optionally signed) integer v, `get_value` classifies the
field as a scalar and returns `min(max(-s, v), s - 1)`; the clamp always
lands in `[-s, s-1]` and is the identity there.  Concretely, text 10 on a
dimension of size 5 clamps to 4, text -10 clamps to -5, and `get_shape`
places the dimension in the scalar-dimension list. -/
theorem scalar_field_clamping (s v : ℤ) (hs : 1 ≤ s) :
    get_value s (.intField v) = (.scalar (min (max (-s) v) (s - 1)), true) ∧
    -s ≤ clipint s v ∧ clipint s v ≤ s - 1 ∧
    (-s ≤ v → v ≤ s - 1 → clipint s v = v) ∧
    get_value 5 (.intField 10) = (.scalar 4, true) ∧
    get_value 5 (.intField (-10)) = (.scalar (-5), true) ∧
    get_shape [(5, .intField 2)] = ([.scalar 2], [0]) := by
  refine ⟨rfl, ?_, ?_, ?_, by decide, by decide, by decide⟩
  · unfold clipint
    omega
  · unfold clipint
    omega
  · intro h1 h2
    unfold clipint
    omega

/-- Witness for C6 at size 5, text 10. -/
theorem scalar_field_clamping_witness :
    (1 : ℤ) ≤ 5 ∧
    (get_value 5 (.intField 10) = (.scalar (min (max (-5) 10) (5 - 1)), true) ∧
    -5 ≤ clipint 5 10 ∧ clipint 5 10 ≤ 5 - 1 ∧
    (-5 ≤ (10 : ℤ) → (10 : ℤ) ≤ 5 - 1 → clipint 5 10 = 10) ∧
    get_value 5 (.intField 10) = (.scalar 4, true) ∧
    get_value 5 (.intField (-10)) = (.scalar (-5), true) ∧
    get_shape [(5, .intField 2)] = ([.scalar 2], [0])) :=
  ⟨by decide, scalar_field_clamping 5 10 (by decide)⟩

end SliceParser

section RGBNormalization

/-- Float division as used in the RGB normalization: `none` models the
non-finite result (NaN or ±inf, with a numpy runtime warning) of dividing
by zero. -/
def nanDiv (a b : ℚ) : Option ℚ := if b = 0 then none else some (a / b)

/-- All elements of a 3-D cutout, row-major. -/
def elems3 {α : Type} (A : Mat3 α) : List α :=
  (List.range A.d0).flatMap (fun r =>
    (List.range A.d1).flatMap (fun c =>
      (List.range A.d2).map (fun k => A.f r c k)))

/-- `np.nanmin(self.cutout)` over the whole cutout (Charts.py line 318);
inputs are modelled NaN-free, `none` is the empty-array error case. -/
def nanminAll (A : Mat3 ℚ) : Option ℚ := (elems3 A).min?

/-- `np.nanmax(self.cutout)` over the whole cutout (Charts.py line 318). -/
def nanmaxAll (A : Mat3 ℚ) : Option ℚ := (elems3 A).max?

/-- The RGB branch of `_n_D_plot` (Charts.py line 319):
`np.swapaxes((self.cutout - mm[0]) / (mm[1] - mm[0]), 0, 1)` with
`mm = [nanmin, nanmax]`.  Each entry is `none` when the division is by
zero; the source applies this expression unconditionally — there is no
guard on `mm[1] - mm[0]`. -/
def rgbData (A : Mat3 ℚ) (mn mx : ℚ) : Mat3 (Option ℚ) :=
  ⟨A.d1, A.d0, A.d2, fun c r k => nanDiv (A.f r c k - mn) (mx - mn)⟩

/-- The branch condition of `_n_D_plot` (Charts.py line 316): `Plot3D`
checked, cutout rank exactly 3, and `sh[2] in (3, 4)`. -/
def rgbBranch (plot3D : Bool) (sh : List ℕ) : Bool :=
  plot3D && decide (sh.length = 3)
    && (decide (sh.getD 2 0 = 3) || decide (sh.getD 2 0 = 4))

/-- C7 counterexample.  Constant cutout of shape (1,1,3) with value 5: the
RGB branch is taken, `nanmin = nanmax = 5`, and the entry of the rendered
data is the non-finite result of the zero division — the normalization is
performed and divides by zero; it is NOT skipped (skipping would have kept
the finite value 5). -/
theorem rgb_guard_counterexample :
    rgbBranch true [1, 1, 3] = true ∧
    nanminAll ⟨1, 1, 3, fun _ _ _ => 5⟩ = some 5 ∧
    nanmaxAll ⟨1, 1, 3, fun _ _ _ => 5⟩ = some 5 ∧
    (rgbData ⟨1, 1, 3, fun _ _ _ => 5⟩ 5 5).f 0 0 0 = none ∧
    (rgbData ⟨1, 1, 3, fun _ _ _ => (5 : ℚ)⟩ 5 5).f 0 0 0 ≠ some 5 := by
  refine ⟨rfl, ?_, ?_, ?_, ?_⟩
  · rfl
  · rfl
  · unfold rgbData nanDiv
    norm_num
  · simp [rgbData, nanDiv]

/-- C7 (amended).  In the RGB branch the min-max normalization
`(x - min) / (max - min)` is applied with NO divide-by-zero guard: whenever
`max = min`, every entry of the rendered data is the non-finite result of a
zero division (NaN), rather than the normalization being skipped; when
`max ≠ min` the normalization formula is applied as usual. -/
theorem rgb_normalization_unguarded (A : Mat3 ℚ) (mn mx : ℚ) (r c k : ℕ)
    (heq : mx = mn) :
    (rgbData A mn mx).f c r k = none ∧
    (rgbData ⟨1, 1, 3, fun _ _ _ => (5 : ℚ)⟩ 5 5).f 0 0 0 ≠ some 5 := by
  constructor
  · unfold rgbData nanDiv
    rw [heq]
    norm_num
  · simp [rgbData, nanDiv]

/-- Witness for C7's amended statement on the constant-5 cutout of shape
(2,2,3). -/
theorem rgb_normalization_unguarded_witness :
    (5 : ℚ) = 5 ∧
    ((rgbData ⟨2, 2, 3, fun _ _ _ => (5 : ℚ)⟩ 5 5).f 1 0 2 = none ∧
    (rgbData ⟨1, 1, 3, fun _ _ _ => (5 : ℚ)⟩ 5 5).f 0 0 0 ≠ some 5) :=
  ⟨rfl, rgb_normalization_unguarded ⟨2, 2, 3, fun _ _ _ => (5 : ℚ)⟩ 5 5 0 1 2 rfl⟩

end RGBNormalization

section PlotDispatch

/-- What `GraphWidget.plot` (Charts.py lines 463-501) does with a rank-2
cutout: `cleared` is the empty-shape early return (lines 466-468, no
message), `textPrint` the PrintFlat branch, `warnSkip` the
more-than-500-lines warning-and-return (lines 486-490, `info_msg` then
`return` before anything is drawn), `lines n` is `axes.plot(cutout)` which
draws one line per column, and `scatter` / `mmm` / `image` are the
remaining rank-2 branches. -/
inductive RenderAct
  | cleared
  | textPrint
  | warnSkip
  | lines (n : ℕ)
  | scatter
  | mmm
  | image
deriving DecidableEq

/-- The rank-2 dispatch of `plot` (Charts.py lines 466-497) for a cutout of
shape `(rows, cols)`, with checkbox states and the `unsave` config option
(`config.getboolean('opt', 'unsave', fallback=False)`). -/
def plotRank2 (rows cols : ℕ) (printFlat plot2D plotScat mmmChecked unsave : Bool) :
    RenderAct :=
  if rows = 0 ∨ cols = 0 then .cleared
  else if printFlat then .textPrint
  else if plot2D then
    if 500 < cols ∧ unsave = false then .warnSkip else .lines cols
  else if plotScat ∧ cols ≤ 4 then .scatter
  else if mmmChecked then .mmm
  else .image

/-- C8 counterexample.  A rank-2 cutout of shape (0, 501) with Plot2D
checked and no unsafe override: `plot` takes the zero-in-shape early return
(line 466), so it draws nothing but also reports NO warning, contradicting
the claim for arbitrary rank-2 cutouts; likewise a (0, 3) cutout has ≤ 500
columns but nothing is plotted. -/
theorem oversized_plot_counterexample :
    plotRank2 0 501 false true false false false = RenderAct.cleared ∧
    RenderAct.cleared ≠ RenderAct.warnSkip ∧
    plotRank2 0 3 false true false false false = RenderAct.cleared ∧
    RenderAct.cleared ≠ RenderAct.lines 3 := by
  refine ⟨by decide, by decide, by decide, by decide⟩

/-- C8 (amended).  For a rank-2 cutout with both dimensions nonzero,
PrintFlat unchecked and Plot2D checked: if the column count exceeds 500 and
the unsafe override is unset, `plot` reports the more-than-500-lines warning
and skips the render entirely; otherwise all columns are plotted as separate
lines. -/
theorem oversized_plot_amended (rows cols : ℕ) (plotScat mmmChecked unsave : Bool)
    (hrows : 0 < rows) (hcols : 0 < cols) :
    (500 < cols ∧ unsave = false →
      plotRank2 rows cols false true plotScat mmmChecked unsave = RenderAct.warnSkip) ∧
    ((cols ≤ 500 ∨ unsave = true) →
      plotRank2 rows cols false true plotScat mmmChecked unsave = RenderAct.lines cols) := by
  unfold plotRank2
  rw [if_neg (by omega), if_neg (by simp), if_pos rfl]
  constructor
  · intro h
    rw [if_pos h]
  · intro h
    rw [if_neg ?hne]
    case hne =>
      rintro ⟨h1, h2⟩
      rcases h with h | h
      · omega
      · rw [h] at h2
        exact absurd h2 (by simp)

/-- Witness for C8's amended statement at shape (1, 501), unsafe unset. -/
theorem oversized_plot_amended_witness :
    ((0 : ℕ) < 1 ∧ (0 : ℕ) < 501) ∧
    ((500 < 501 ∧ false = false →
      plotRank2 1 501 false true false false false = RenderAct.warnSkip) ∧
    ((501 ≤ 500 ∨ false = true) →
      plotRank2 1 501 false true false false false = RenderAct.lines 501)) :=
  ⟨⟨by decide, by decide⟩,
   oversized_plot_amended 1 501 false false false (by decide) (by decide)⟩

end PlotDispatch

section CutoutRank

/-- Whether a slice-spec entry is a scalar (plain-integer) field. -/
def isScalarSpec : SliceSpec → Bool
  | .scalar _ => true
  | _ => false

/-- Number of indices selected by a Python slice `start:stop:step` on a
dimension of size `len`: the semantics of `slice.indices` (CPython
`PySlice_AdjustIndices`).  A zero step raises ValueError in Python and is
mapped to 0 here (outside every claim). -/
def sliceLen (len : ℕ) (ostart ostop ostep : Option ℤ) : ℕ :=
  let step : ℤ := ostep.getD 1
  if step = 0 then 0
  else if 0 < step then
    let start : ℤ := match ostart with
      | none => 0
      | some x => if x < 0 then max (x + len) 0 else min x len
    let stop : ℤ := match ostop with
      | none => len
      | some x => if x < 0 then max (x + len) 0 else min x len
    if start < stop then (stop - start - 1).toNat / step.toNat + 1 else 0
  else
    let start : ℤ := match ostart with
      | none => (len : ℤ) - 1
      | some x => if x < 0 then max (x + len) (-1) else min x ((len : ℤ) - 1)
    let stop : ℤ := match ostop with
      | none => -1
      | some x => if x < 0 then max (x + len) (-1) else min x ((len : ℤ) - 1)
    if stop < start then (start - stop - 1).toNat / (-step).toNat + 1 else 0

/-- The take loop of `renew_cutout` (Charts.py lines 421-424), shape level:
every index-list dimension is replaced via `data.take(sli, axis=i)`, setting
that axis extent to the tuple length. -/
def takePhase : List ℕ → List SliceSpec → List ℕ
  | s :: sh, sl :: sls =>
      (match sl with
       | .idxList vs => vs.length
       | _ => s) :: takePhase sh sls
  | sh, [] => sh
  | [], _ => []

/-- The basic-indexing step `data[tuple(newslice)]` of `renew_cutout`
(Charts.py line 427, `newslice` built in lines 420-426), shape level:
integer entries remove their axis, index-list axes (already taken) are kept
whole via `slice(None)`, range axes keep their sliced extent. -/
def indexPhase : List ℕ → List SliceSpec → List ℕ
  | s :: sh, sl :: sls =>
      match sl with
      | .scalar _ => indexPhase sh sls
      | .idxList _ => s :: indexPhase sh sls
      | .range a b c => sliceLen s a b c :: indexPhase sh sls
  | sh, [] => sh
  | [], _ => []

/-- `.squeeze()` (Charts.py line 427): remove every axis of extent 1. -/
def squeezeShape (sh : List ℕ) : List ℕ := sh.filter (fun s => s ≠ 1)

/-- Shape-level `renew_cutout` (Charts.py lines 418-427). -/
def renewCutoutShape (sh : List ℕ) (slices : List SliceSpec) : List ℕ :=
  squeezeShape (indexPhase (takePhase sh slices) slices)

/-- The scalar-dimension list determined by the slice spec: the positions
whose field parsed as an integer (the `scalDims` array that `renewPlot`
receives from `get_shape`). -/
def scalarDimsL (slices : List SliceSpec) : List ℕ :=
  (List.range slices.length).filter
    (fun i => isScalarSpec (slices.getD i (.scalar 0)))

/-- Shape-level semantics of the reduction
`np.nanmin(x, axis=tuple_of_axes)` (and nanmax/nanmean/nanmedian): the
listed axes are removed from the shape. -/
def reduceShape (sh : List ℕ) (axes : List ℕ) : List ℕ :=
  ((List.range sh.length).filter (fun i => decide (i ∉ axes))).map (fun i => sh.getD i 0)

/-- The rank of the cutout after `renewPlot` (Charts.py lines 446-459):
cut out and squeeze (`renew_cutout`), then, when the operation-dimension
set is nonempty and not contained in the scalar dims, reduce over the
adjusted axes `oprcorrTuple`; the conditional transpose of lines 457-459
swaps two axes and never changes the rank. -/
def renewPlotNdim (sh : List ℕ) (slices : List SliceSpec) (D : Finset ℕ) : ℕ :=
  let S := (scalarDimsL slices).toFinset
  let cut := renewCutoutShape sh slices
  if D.Nonempty ∧ ¬ D ⊆ S then (reduceShape cut (oprcorrTuple D S)).length
  else cut.length

lemma length_filter_range (q : ℕ → Bool) (n : ℕ) :
    ((List.range n).filter q).length = ((Finset.range n).filter (fun i => q i = true)).card := by
  induction n with
  | zero => rfl
  | succ m ih =>
    rw [List.range_succ, List.filter_append, List.length_append, Finset.range_succ,
      Finset.filter_insert]
    by_cases hq : q m = true
    · rw [if_pos hq, Finset.card_insert_of_not_mem (fun hmem =>
        absurd (Finset.mem_range.mp (Finset.mem_filter.mp hmem).1) (lt_irrefl m))]
      simp [hq, ih]
    · rw [if_neg hq]
      simp [hq, ih]

lemma indexPhase_length :
    ∀ (slices : List SliceSpec) (sh : List ℕ), slices.length = sh.length →
      (indexPhase (takePhase sh slices) slices).length
        + slices.countP (fun sl => isScalarSpec sl) = sh.length := by
  intro slices
  induction slices with
  | nil =>
    intro sh hlen
    have hsh : sh = [] := by
      cases sh
      · rfl
      · simp at hlen
    subst hsh
    rfl
  | cons sl sls ih =>
    intro sh hlen
    cases sh with
    | nil => simp at hlen
    | cons s sh =>
      have hlen2 : sls.length = sh.length := by simpa using hlen
      have hrec := ih sh hlen2
      cases sl with
      | scalar v =>
        have hcount : List.countP (fun sl => isScalarSpec sl) (SliceSpec.scalar v :: sls)
            = List.countP (fun sl => isScalarSpec sl) sls + 1 := by
          simp [List.countP_cons, isScalarSpec]
        have hstep : indexPhase (takePhase (s :: sh) (SliceSpec.scalar v :: sls))
              (SliceSpec.scalar v :: sls)
            = indexPhase (takePhase sh sls) sls := rfl
        rw [hstep, hcount, List.length_cons]
        omega
      | idxList vs =>
        have hcount : List.countP (fun sl => isScalarSpec sl) (SliceSpec.idxList vs :: sls)
            = List.countP (fun sl => isScalarSpec sl) sls := by
          simp [List.countP_cons, isScalarSpec]
        have hstep : indexPhase (takePhase (s :: sh) (SliceSpec.idxList vs :: sls))
              (SliceSpec.idxList vs :: sls)
            = vs.length :: indexPhase (takePhase sh sls) sls := rfl
        rw [hstep, hcount, List.length_cons, List.length_cons]
        omega
      | range a b c =>
        have hcount : List.countP (fun sl => isScalarSpec sl) (SliceSpec.range a b c :: sls)
            = List.countP (fun sl => isScalarSpec sl) sls := by
          simp [List.countP_cons, isScalarSpec]
        have hstep : indexPhase (takePhase (s :: sh) (SliceSpec.range a b c :: sls))
              (SliceSpec.range a b c :: sls)
            = sliceLen s a b c :: indexPhase (takePhase sh sls) sls := rfl
        rw [hstep, hcount, List.length_cons, List.length_cons]
        omega

lemma scalarDimsL_length (slices : List SliceSpec) :
    (scalarDimsL slices).length = slices.countP (fun sl => isScalarSpec sl) := by
  unfold scalarDimsL
  induction slices with
  | nil => rfl
  | cons a l ih =>
    rw [show (a :: l).length = l.length + 1 from rfl, List.range_succ_eq_map,
      List.filter_cons, List.countP_cons]
    have hmap : ((List.range l.length).map (fun i => i + 1)).filter
          (fun i => isScalarSpec ((a :: l).getD i (.scalar 0)))
        = ((List.range l.length).filter
            (fun i => isScalarSpec (l.getD i (.scalar 0)))).map (fun i => i + 1) := by
      rw [List.filter_map]
      refine congrArg _ (List.filter_congr ?_)
      intro i _
      rfl
    by_cases ha : isScalarSpec a = true
    · rw [if_pos (by simpa using ha)]
      simp only [List.length_cons, hmap, List.length_map, List.getD_cons_zero] at *
      rw [ih]
      simp [ha]
    · rw [if_neg (by simpa using ha)]
      simp only [hmap, List.length_map, List.getD_cons_zero] at *
      rw [ih]
      simp [ha]

lemma scalarDimsL_nodup (slices : List SliceSpec) : (scalarDimsL slices).Nodup :=
  (List.nodup_range _).filter _

lemma scalarDimsL_subset {slices : List SliceSpec} :
    (scalarDimsL slices).toFinset ⊆ Finset.range slices.length := by
  intro i hi
  rw [Finset.mem_range]
  exact List.mem_range.mp (List.mem_of_mem_filter (List.mem_toFinset.mp hi))

lemma reduceShape_length (sh : List ℕ) (axes : List ℕ) (hnd : axes.Nodup)
    (hlt : ∀ a ∈ axes, a < sh.length) :
    (reduceShape sh axes).length = sh.length - axes.length := by
  unfold reduceShape
  rw [List.length_map, length_filter_range]
  have hconv : (Finset.range sh.length).filter (fun i => decide (i ∉ axes) = true)
      = Finset.range sh.length \ axes.toFinset := by
    ext i
    simp [List.mem_toFinset, Finset.mem_sdiff]
  rw [hconv, Finset.card_sdiff (by
    intro a ha
    rw [Finset.mem_range]
    exact hlt a (List.mem_toFinset.mp ha))]
  rw [Finset.card_range, List.toFinset_card_of_nodup hnd]

lemma filter_le_card_le {S : Finset ℕ} {a : ℕ} (ha : a ∉ S) :
    (S.filter (fun s => s ≤ a)).card ≤ a := by
  have hsub : S.filter (fun s => s ≤ a) ⊆ Finset.range a := by
    intro s hs
    rw [Finset.mem_range]
    rcases Finset.mem_filter.mp hs with ⟨hsS, hsle⟩
    rcases Nat.lt_or_ge s a with h | h
    · exact h
    · have hsa : s = a := by omega
      exact absurd (hsa ▸ hsS) ha
  calc (S.filter (fun s => s ≤ a)).card ≤ (Finset.range a).card := Finset.card_le_card hsub
  _ = a := Finset.card_range a

lemma filter_le_split {S : Finset ℕ} {a b : ℕ} (hab : a < b) (hb : b ∉ S) :
    (S.filter (fun s => s ≤ b)).card
      ≤ (S.filter (fun s => s ≤ a)).card + (b - a - 1) := by
  have hsub : S.filter (fun s => s ≤ b)
      ⊆ S.filter (fun s => s ≤ a) ∪ S.filter (fun s => a < s ∧ s ≤ b) := by
    intro s hs
    rcases Finset.mem_filter.mp hs with ⟨hsS, hsle⟩
    rcases le_or_lt s a with h | h
    · exact Finset.mem_union_left _ (Finset.mem_filter.mpr ⟨hsS, h⟩)
    · exact Finset.mem_union_right _ (Finset.mem_filter.mpr ⟨hsS, h, hsle⟩)
  have hIoo : S.filter (fun s => a < s ∧ s ≤ b) ⊆ Finset.Ioo a b := by
    intro s hs
    rcases Finset.mem_filter.mp hs with ⟨hsS, h1, h2⟩
    rw [Finset.mem_Ioo]
    have hne : s ≠ b := fun he => hb (he ▸ hsS)
    exact ⟨h1, by omega⟩
  calc (S.filter (fun s => s ≤ b)).card
      ≤ (S.filter (fun s => s ≤ a) ∪ S.filter (fun s => a < s ∧ s ≤ b)).card :=
        Finset.card_le_card hsub
  _ ≤ (S.filter (fun s => s ≤ a)).card + (S.filter (fun s => a < s ∧ s ≤ b)).card :=
        Finset.card_union_le _ _
  _ ≤ (S.filter (fun s => s ≤ a)).card + (Finset.Ioo a b).card := by
        exact Nat.add_le_add_left (Finset.card_le_card hIoo) _
  _ = (S.filter (fun s => s ≤ a)).card + (b - a - 1) := by rw [Nat.card_Ioo]

lemma oprcorr_lt {S : Finset ℕ} {a b : ℕ} (hab : a < b) (ha : a ∉ S) (hb : b ∉ S) :
    a - (S.filter (fun s => s ≤ a)).card < b - (S.filter (fun s => s ≤ b)).card := by
  have h1 := filter_le_card_le ha
  have h2 := filter_le_split hab hb
  omega

lemma oprcorr_lt_bound {S : Finset ℕ} {b n : ℕ} (hbn : b < n) (hb : b ∉ S)
    (hS : S ⊆ Finset.range n) :
    b - (S.filter (fun s => s ≤ b)).card < n - S.card := by
  have h1 := filter_le_card_le hb
  have hsplit : (S.filter (fun s => s ≤ b)).card
      + (S.filter (fun s => ¬ s ≤ b)).card = S.card :=
    Finset.filter_card_add_filter_neg_card_eq_card _
  have h2 : (S.filter (fun s => ¬ s ≤ b)).card ≤ n - b - 1 := by
    have hsub : S.filter (fun s => ¬ s ≤ b) ⊆ Finset.Ioo b n := by
      intro s hs
      rcases Finset.mem_filter.mp hs with ⟨hsS, hgt⟩
      rw [Finset.mem_Ioo]
      have hsn := Finset.mem_range.mp (hS hsS)
      omega
    calc (S.filter (fun s => ¬ s ≤ b)).card ≤ (Finset.Ioo b n).card :=
          Finset.card_le_card hsub
    _ = n - b - 1 := Nat.card_Ioo b n
  omega

lemma oprcorrTuple_length (D S : Finset ℕ) :
    (oprcorrTuple D S).length = (D \ S).card := by
  unfold oprcorrTuple
  rw [List.length_map, Finset.length_sort]

lemma oprcorrTuple_nodup (D S : Finset ℕ) : (oprcorrTuple D S).Nodup := by
  unfold oprcorrTuple
  rw [List.Nodup, List.pairwise_map]
  have hsorted : ((D \ S).sort (· ≤ ·)).Pairwise (· < ·) := Finset.sort_sorted_lt _
  refine hsorted.imp_of_mem ?_
  intro a b ha hb hab
  have haS : a ∉ S := (Finset.mem_sdiff.mp ((Finset.mem_sort _).mp ha)).2
  have hbS : b ∉ S := (Finset.mem_sdiff.mp ((Finset.mem_sort _).mp hb)).2
  exact Nat.ne_of_lt (oprcorr_lt hab haS hbS)

lemma oprcorrTuple_bound {D S : Finset ℕ} {n : ℕ} (hD : D ⊆ Finset.range n)
    (hS : S ⊆ Finset.range n) :
    ∀ a ∈ oprcorrTuple D S, a < n - S.card := by
  intro a ha
  unfold oprcorrTuple at ha
  rcases List.mem_map.mp ha with ⟨b, hb, rfl⟩
  rcases Finset.mem_sdiff.mp ((Finset.mem_sort _).mp hb) with ⟨hbD, hbS⟩
  exact oprcorr_lt_bound (Finset.mem_range.mp (hD hbD)) hbS hS

/-- C3 counterexample.  Source shape (1, 2), both dimensions kept whole
(empty fields parse as full ranges), no operation dims: `.squeeze()`
removes the size-1 NON-scalar axis too, so the cutout rank is 1, while the
claimed formula `source.ndim - |scalar| - |opdims not scalar|` gives 2. -/
theorem cutout_rank_counterexample :
    renewPlotNdim [1, 2] [.range none none none, .range none none none] ∅ = 1 ∧
    ([1, 2] : List ℕ).length
        - (scalarDimsL [SliceSpec.range none none none, .range none none none]).length
        - ((∅ : Finset ℕ)
            \ (scalarDimsL [SliceSpec.range none none none, .range none none none]).toFinset).card
      = 2 ∧
    (1 : ℕ) ≠ 2 := by
  refine ⟨by decide, by decide, by decide⟩

/-- C3 (amended).  Cutout-rank postcondition: whenever the slice spec has
one entry per source dimension, the operation dims lie within the source
rank, and NO surviving (non-scalar) axis has sliced extent exactly 1, the
cutout produced by `renew_cutout` + the reduction step of `renewPlot`
satisfies `cutout.ndim = source.ndim - |scalar dims| - |op dims not in
scalar dims|`.  Without the extent-1 proviso the equality fails, because
`.squeeze()` also drops size-1 axes that were not scalar-indexed. -/
theorem cutout_rank_amended (sh : List ℕ) (slices : List SliceSpec) (D : Finset ℕ)
    (hlen : slices.length = sh.length)
    (hD : D ⊆ Finset.range sh.length)
    (hno1 : ∀ x ∈ indexPhase (takePhase sh slices) slices, x ≠ 1) :
    renewPlotNdim sh slices D
      = sh.length - (scalarDimsL slices).length
          - (D \ (scalarDimsL slices).toFinset).card := by
  have hSsub : (scalarDimsL slices).toFinset ⊆ Finset.range sh.length := by
    rw [← hlen]
    exact scalarDimsL_subset
  have hcut : renewCutoutShape sh slices = indexPhase (takePhase sh slices) slices := by
    unfold renewCutoutShape squeezeShape
    exact List.filter_eq_self.mpr (fun x hx => decide_eq_true (hno1 x hx))
  have hcl : (renewCutoutShape sh slices).length
      = sh.length - (scalarDimsL slices).length := by
    rw [hcut]
    have h1 := indexPhase_length slices sh hlen
    have h2 := scalarDimsL_length slices
    omega
  unfold renewPlotNdim
  by_cases hcond : D.Nonempty ∧ ¬ D ⊆ (scalarDimsL slices).toFinset
  · rw [if_pos hcond]
    have hbound : ∀ a ∈ oprcorrTuple D (scalarDimsL slices).toFinset,
        a < (renewCutoutShape sh slices).length := by
      rw [hcl, ← List.toFinset_card_of_nodup (scalarDimsL_nodup slices)]
      exact oprcorrTuple_bound hD hSsub
    rw [reduceShape_length _ _ (oprcorrTuple_nodup _ _) hbound, hcl,
      oprcorrTuple_length]
  · rw [if_neg hcond]
    have hds : D \ (scalarDimsL slices).toFinset = ∅ := by
      rcases Finset.eq_empty_or_nonempty D with hDe | hDn
      · rw [hDe]
        exact Finset.empty_sdiff _
      · have hsub : D ⊆ (scalarDimsL slices).toFinset := by
          by_contra hns
          exact hcond ⟨hDn, hns⟩
        exact Finset.sdiff_eq_empty_iff_subset.mpr hsub
    rw [hcl, hds]
    simp

/-- Witness for C3's amended statement: shape (4, 5, 6), spec
(scalar 1, full range, full range), D = {0, 2}. -/
theorem cutout_rank_amended_witness :
    (([SliceSpec.scalar 1, .range none none none, .range none none none] : List SliceSpec).length
        = ([4, 5, 6] : List ℕ).length
      ∧ ({0, 2} : Finset ℕ) ⊆ Finset.range ([4, 5, 6] : List ℕ).length
      ∧ ∀ x ∈ indexPhase
          (takePhase [4, 5, 6] [SliceSpec.scalar 1, .range none none none, .range none none none])
          [SliceSpec.scalar 1, .range none none none, .range none none none], x ≠ 1) ∧
    renewPlotNdim [4, 5, 6]
        [SliceSpec.scalar 1, .range none none none, .range none none none] {0, 2}
      = ([4, 5, 6] : List ℕ).length
          - (scalarDimsL [SliceSpec.scalar 1, .range none none none, .range none none none]).length
          - (({0, 2} : Finset ℕ)
              \ (scalarDimsL [SliceSpec.scalar 1, .range none none none,
                  .range none none none]).toFinset).card :=
  ⟨⟨by decide, by decide, by decide⟩,
   cutout_rank_amended [4, 5, 6]
     [SliceSpec.scalar 1, .range none none none, .range none none none] {0, 2}
     (by decide) (by decide) (by decide)⟩

end CutoutRank

end ArrayViewer
